import Mathlib

/-!
Shallow embedding of `compiler/rustc_codegen_ssa/src/back/archive.rs`
(the `ArArchiveBuilder` archive-builder session, the mach-o fat-archive
slice extractor, and the atomic build step), together with proofs about
the claims of the specification.

Modelling conventions:
* Machine bytes are `Nat`s; mapped file contents are `List Nat`.
* `std::path::Path` values are embedded at the API level: a path carries its
  textual identity, the result of `Path::file_name()` (`none` for paths such
  as `/` or ones ending in `..`), whether that file name is valid UTF-8
  (`OsStr::to_str` succeeds), and the identity of `Path::parent()`.
* The filesystem is an association list from paths to contents threaded
  through a single state `S`; `File::open` + `Mmap::map` is a lookup.
* External collaborators (the `object` crate's archive and fat-header
  parsers, and `ar_archive_writer::write_archive_to_stream`) are oracles in
  an environment `Env`; fallible OS steps of `build` (temp-dir creation,
  rename, temp-dir removal) are boolean oracles there as well.
* Rust panics (`unwrap`, out-of-bounds indexing/slicing) are the `panic`
  constructor of `StepResult`; `io::Result` errors are its `err` constructor.
* The `tempfile` crate's fresh-name generation is modelled by a counter in
  the state; the temp directory of `build` is created inside the output
  path's parent, mirroring `tempdir_in(output.parent())`.
* An event log records the I/O actions (`File::open`/`Mmap::map`, temp file
  and directory creation, the encoder writing to the stream, dropping the
  source-archive maps, the rename, removing the temp directory) so that
  ordering properties of the write protocol can be stated.
-/

namespace ArchiveRs
abbrev Byte := Nat

/-- API-level embedding of `std::path::Path` / `PathBuf`. -/
structure RPath where
  repr : String
  fileNameOs? : Option String
  fileNameUtf8 : Bool
  parentRepr : String
deriving DecidableEq

/-- The `io::Error` values produced by this module (kind-level). -/
inductive IOErr where
  | notFound
  | invalidData
  | otherErr (context : String)
deriving DecidableEq

/-- Embedding of `object::Architecture`, restricted to the constructors this module names. -/
inductive Architecture where
  | Aarch64
  | X86_64
  | other (tag : Nat)
deriving DecidableEq

/-- One slice of a mach-o fat container, as reported by `FatArch`. -/
structure FatSlice where
  arch : Architecture
  offset : Nat
  size : Nat
deriving DecidableEq

/-- Embedding of `FatArch::data`: the byte range of the slice inside the mapped file,
`Err` (here `none`) when the range is out of bounds. -/
def FatSlice.data (a : FatSlice) (m : List Byte) : Option (List Byte) :=
  if a.offset + a.size ≤ m.length then some ((m.drop a.offset).take a.size) else none

/-- One member produced by `ArchiveFile::members()`: either an entry-read
error, or a member whose name decodes (or not) as UTF-8, with its
`file_range`. -/
inductive MemberRead where
  | readErr
  | okm (name? : Option String) (file_range : Nat × Nat)
deriving DecidableEq

/-- Embedding of `ArchiveEntry` from the source. -/
inductive ArchiveEntry where
  | fromArchive (archive_index : Nat) (file_range : Nat × Nat)
  | file (path : RPath)
deriving DecidableEq

/-- The fields of `sess.target` that this module reads. -/
structure Target where
  llvm_target : String
  arch : String
  archive_format : String
deriving DecidableEq

/-- I/O events, for stating ordering properties of the write protocol. -/
inductive Ev where
  | openedFile (p : RPath)
  | createdTempFile (p : RPath)
  | createdTempDir (p : RPath)
  | wroteStream (p : RPath)
  | droppedMaps
  | renamed (src dst : RPath)
  | removedTempDir (p : RPath)
deriving DecidableEq

/-- Combined state: the builder session (`src_archives`, `entries`, the
target configuration it reads) and the world it acts on (filesystem,
directories, temp-name counter, event log). -/
structure S where
  target : Target
  src_archives : List (RPath × List Byte)
  entries : List (String × ArchiveEntry)
  fs : List (RPath × List Byte)
  dirs : List RPath
  tempCounter : Nat
  events : List Ev
deriving DecidableEq

/-- Embedding of `ar_archive_writer::NewArchiveMember` (the fields set by `build_inner`). -/
structure NewArchiveMember where
  member_name : String
  buf : List Byte
  mtime : Nat
  uid : Nat
  gid : Nat
  perms : Nat
deriving DecidableEq

/-- Embedding of `ar_archive_writer::ArchiveKind`. -/
inductive ArchiveKind where
  | Gnu
  | Bsd
  | Darwin
  | Coff
  | AixBig
deriving DecidableEq

/-- External collaborators and OS failure oracles. -/
structure Env where
  parseFat32 : List Byte → Option (List FatSlice)
  parseFat64 : List Byte → Option (List FatSlice)
  parseArchive : List Byte → Option (List MemberRead)
  encode : List NewArchiveMember → ArchiveKind → Bool → Bool → Option (List Byte)
  tmpdirOk : Bool
  renameOk : Bool
  closeOk : Bool

/-- Outcome of a fallible, possibly-panicking operation, carrying the state
reached at the point of return. -/
inductive StepResult (α : Type) where
  | ok (s : S) (a : α)
  | err (s : S) (e : IOErr)
  | panic (s : S)
deriving DecidableEq

/-- The test `List.isPrefixOf` driven along the haystack: substring test. -/
def strContainsAux (ns : List Char) : List Char → Bool
  | [] => List.isPrefixOf ns []
  | h :: hs => List.isPrefixOf ns (h :: hs) || strContainsAux ns hs

/-- Rust `str::contains` for a literal needle. -/
def strContains (haystack needle : String) : Bool :=
  strContainsAux needle.data haystack.data

/-- Look a path up in a filesystem listing. -/
def fsLookup (fs : List (RPath × List Byte)) (p : RPath) : Option (List Byte) :=
  (fs.find? (fun q => decide (q.1 = p))).map Prod.snd

/-- Embedding of `File::open` + `Mmap::map`: look the path up in the filesystem. -/
def fsRead (s : S) (p : RPath) : Option (List Byte) :=
  fsLookup s.fs p

/-- Create or overwrite a file. -/
def fsWrite (s : S) (p : RPath) (data : List Byte) : S :=
  { s with fs := (p, data) :: s.fs.filter (fun q => !decide (q.1 = p)) }

/-- Remove a file. -/
def fsRemove (s : S) (p : RPath) : S :=
  { s with fs := s.fs.filter (fun q => !decide (q.1 = p)) }

/-- Append an event to the log. -/
def logEv (s : S) (e : Ev) : S :=
  { s with events := s.events ++ [e] }

/-- Embedding of `tempfile::Builder::new().suffix(sfx).tempfile()`: a fresh name in the
system temp directory. -/
def tempFilePath (counter : Nat) (sfx : String) : RPath :=
  { repr := "/tmp/." ++ toString counter ++ sfx
    fileNameOs? := some ("." ++ toString counter ++ sfx)
    fileNameUtf8 := true
    parentRepr := "/tmp" }

/-- Embedding of `TempFileBuilder::new().suffix(".temp-archive").tempdir_in(parent)`:
a fresh directory name inside `parent`. -/
def tempDirPath (counter : Nat) (parent : String) : RPath :=
  { repr := parent ++ "/." ++ toString counter ++ ".temp-archive"
    fileNameOs? := some ("." ++ toString counter ++ ".temp-archive")
    fileNameUtf8 := true
    parentRepr := parent }

/-- Embedding of `archive_tmpdir.path().join("tmp.a")`. -/
def joinTmpA (dir : RPath) : RPath :=
  { repr := dir.repr ++ "/tmp.a"
    fileNameOs? := some "tmp.a"
    fileNameUtf8 := true
    parentRepr := dir.repr }

/-- The `TempDir` guard's destructor: remove the directory and its contents
(the single file `file`), ignoring errors. -/
def dropTempDir (s : S) (dir file : RPath) : S :=
  let s1 := fsRemove s file
  { s1 with dirs := s1.dirs.filter (fun d => !decide (d = dir)) }

/-- Embedding of `try_filter_fat_archs` (archive.rs:110): look for the slice of the
desired architecture; if present, create a kept temp file (suffix = the
input's file name, `unwrap` panics when the input has none) and write
exactly that slice's byte range into it. -/
def try_filter_fat_archs (s : S) (archs : List FatSlice) (target_arch : Architecture)
    (archive_path : RPath) (archive_map_data : List Byte) : StepResult (Option RPath) :=
  match archs.find? (fun a => decide (a.arch = target_arch)) with
  | none => .ok s none
  | some desired =>
    match archive_path.fileNameOs? with
    | none => .panic s
    | some sfx =>
      match desired.data archive_map_data with
      | none =>
        .err (logEv (fsWrite { s with tempCounter := s.tempCounter + 1 }
            (tempFilePath s.tempCounter sfx) [])
          (.createdTempFile (tempFilePath s.tempCounter sfx)))
          (.otherErr "fat slice data out of range")
      | some bytes =>
        .ok (fsWrite (logEv (fsWrite { s with tempCounter := s.tempCounter + 1 }
              (tempFilePath s.tempCounter sfx) [])
            (.createdTempFile (tempFilePath s.tempCounter sfx)))
            (tempFilePath s.tempCounter sfx) bytes)
          (some (tempFilePath s.tempCounter sfx))

/-- The `match sess.target.arch.as_ref()` of `try_extract_macho_fat_archive`
(archive.rs:139): `none` stands for the `_ => return Ok(None)` arm. -/
def targetArchOf? (arch : String) : Option Architecture :=
  if arch = "aarch64" then some .Aarch64
  else if arch = "x86_64" then some .X86_64
  else none

/-- Embedding of `try_extract_macho_fat_archive` (archive.rs:134): map the file, resolve
the target architecture tag (anything but `aarch64`/`x86_64` yields no
substitution), then try the 32-bit fat header first and the 64-bit one
second. -/
def try_extract_macho_fat_archive (env : Env) (s : S) (archive_path : RPath) :
    StepResult (Option RPath) :=
  match fsRead s archive_path with
  | none => .err s .notFound
  | some archive_map =>
    match targetArchOf? s.target.arch with
    | none => .ok (logEv s (.openedFile archive_path)) none
    | some target_arch =>
      match env.parseFat32 archive_map with
      | some archs =>
        try_filter_fat_archs (logEv s (.openedFile archive_path)) archs target_arch
          archive_path archive_map
      | none =>
        match env.parseFat64 archive_map with
        | some archs =>
          try_filter_fat_archs (logEv s (.openedFile archive_path)) archs target_arch
            archive_path archive_map
        | none => .ok (logEv s (.openedFile archive_path)) none

/-- The member loop of `add_archive` (archive.rs:180): in container order,
propagate entry-read and name-decode failures as `InvalidData`, and append a
`FromArchive` entry for every member the skip predicate does not reject. -/
def addMembers (s : S) (archive_index : Nat) (skip : String → Bool) :
    List MemberRead → StepResult Unit
  | [] => .ok s ()
  | .readErr :: _ => .err s .invalidData
  | .okm none _ :: _ => .err s .invalidData
  | .okm (some file_name) file_range :: rest =>
    if skip file_name then addMembers s archive_index skip rest
    else
      addMembers
        { s with entries := s.entries ++ [(file_name, .fromArchive archive_index file_range)] }
        archive_index skip rest

/-- The part of `add_archive` after the fat-extraction step (archive.rs:171-193):
dedup on the effective path, map, parse, run the member loop, then retain
the mapped source archive. -/
def add_archive_core (env : Env) (s : S) (archive_path : RPath) (skip : String → Bool) :
    StepResult Unit :=
  if s.src_archives.any (fun archive => decide (archive.1 = archive_path)) then .ok s ()
  else
    match fsRead s archive_path with
    | none => .err s .notFound
    | some archive_map =>
      match env.parseArchive archive_map with
      | none => .err (logEv s (.openedFile archive_path)) .invalidData
      | some members =>
        match addMembers (logEv s (.openedFile archive_path))
            s.src_archives.length skip members with
        | .ok s2 _ =>
          .ok { s2 with src_archives := s2.src_archives ++ [(archive_path, archive_map)] } ()
        | r => r

/-- Embedding of `ArchiveBuilder::add_archive` for `ArArchiveBuilder` (archive.rs:158):
when the target's `llvm_target` mentions `-apple-macosx`, first attempt fat
extraction and substitute the extracted path when one is produced. -/
def add_archive (env : Env) (s : S) (archive_path : RPath) (skip : String → Bool) :
    StepResult Unit :=
  if strContains s.target.llvm_target "-apple-macosx" then
    match try_extract_macho_fat_archive env s archive_path with
    | .ok s1 (some new_archive_path) => add_archive_core env s1 new_archive_path skip
    | .ok s1 none => add_archive_core env s1 archive_path skip
    | .err s1 e => .err s1 e
    | .panic s1 => .panic s1
  else
    add_archive_core env s archive_path skip

/-- Embedding of `ArchiveBuilder::add_file` (archive.rs:197): push one `File` entry named
`file.file_name().unwrap().to_str().unwrap()`; each `unwrap` can panic. -/
def add_file (s : S) (file : RPath) : StepResult Unit :=
  match file.fileNameOs? with
  | none => .panic s
  | some name =>
    if file.fileNameUtf8 then
      .ok { s with entries := s.entries ++ [(name, .file file)] } ()
    else .panic s

/-- The `archive_kind` match at the head of `build_inner` (archive.rs:219);
`none` stands for the `emit_fatal (UnknownArchiveKind)` arm. -/
def archiveKindOf? (fmt : String) : Option ArchiveKind :=
  if fmt = "gnu" then some .Gnu
  else if fmt = "bsd" then some .Bsd
  else if fmt = "darwin" then some .Darwin
  else if fmt = "coff" then some .Coff
  else if fmt = "aix_big" then some .AixBig
  else none

/-- The entry-resolution loop of `build_inner` (archive.rs:232): a
`FromArchive` entry slices out of the retained map (Rust indexing and
slicing panic when out of bounds); a `File` entry is opened and mapped now,
failing with an attributed error. Metadata is fixed: mtime 0, uid 0, gid 0,
perms 0o644. -/
def resolveEntries (s : S) : List (String × ArchiveEntry) → StepResult (List NewArchiveMember)
  | [] => .ok s []
  | (entry_name, .fromArchive archive_index file_range) :: rest =>
    match s.src_archives[archive_index]? with
    | none => .panic s
    | some src_archive =>
      if file_range.1 + file_range.2 ≤ src_archive.2.length then
        match resolveEntries s rest with
        | .ok s2 members =>
          .ok s2 ({ member_name := entry_name,
                    buf := (src_archive.2.drop file_range.1).take file_range.2,
                    mtime := 0, uid := 0, gid := 0, perms := 0o644 } :: members)
        | r => r
      else .panic s
  | (entry_name, .file file) :: rest =>
    match fsRead s file with
    | none => .err s (.otherErr "failed to open object file")
    | some data =>
      match resolveEntries (logEv s (.openedFile file)) rest with
      | .ok s2 members =>
        .ok s2 ({ member_name := entry_name, buf := data,
                  mtime := 0, uid := 0, gid := 0, perms := 0o644 } :: members)
      | r => r

/-- Outcome of `build_inner`: an `io::Result<bool>`, or the diverging
`emit_fatal (UnknownArchiveKind)`, or a panic. -/
inductive BuildResult where
  | ok (s : S) (any_members : Bool)
  | ioError (s : S) (e : IOErr)
  | fatalUnknownKind (s : S) (kind : String)
  | panic (s : S)
deriving DecidableEq

/-- Embedding of `archive_tmpdir.close()` (archive.rs:298): on success the (by now
empty) temp directory is removed; on failure the directory stays behind and
the error is reported. -/
def buildStage5 (env : Env) (s6 : S) (any_entries : Bool) (d : RPath) : BuildResult :=
  if env.closeOk then
    .ok (logEv { s6 with dirs := s6.dirs.filter (fun x => !decide (x = d)) }
      (.removedTempDir d)) any_entries
  else .ioError s6 (.otherErr "failed to remove temporary directory")

/-- Embedding of `fs::rename(archive_tmpfile_path, output)` (archive.rs:296): `s5` is
the state after the source-archive maps were dropped; the temp file `f`
holds the complete `archive_bytes`. On failure the `TempDir` guard removes
the directory and its contents. -/
def buildStage4 (env : Env) (s5 : S) (any_entries : Bool) (archive_bytes : List Byte)
    (output d f : RPath) : BuildResult :=
  if env.renameOk then
    buildStage5 env (logEv (fsWrite (fsRemove s5 f) output archive_bytes)
      (.renamed f output)) any_entries d
  else .ioError (dropTempDir s5 d f) (.otherErr "failed to rename archive file")

/-- Embedding of `write_archive_to_stream(...)` then `drop(entries)`, `drop(src_archives)`
(archive.rs:282-294): `s3` is the state with the empty temp file created.
An encoder failure propagates and the `TempDir` guard cleans up. -/
def buildStage3 (env : Env) (s3 : S) (archive_kind : ArchiveKind)
    (entries : List NewArchiveMember) (output d f : RPath) : BuildResult :=
  match env.encode entries archive_kind false (decide (s3.target.arch = "arm64ec")) with
  | none => .ioError (dropTempDir s3 d f) (.otherErr "write_archive_to_stream")
  | some archive_bytes =>
    buildStage4 env
      (logEv { (logEv (fsWrite s3 f archive_bytes) (.wroteStream f)) with
        src_archives := [] } .droppedMaps)
      (!entries.isEmpty) archive_bytes output d f

/-- Embedding of `File::create_new(&archive_tmpfile_path)` (archive.rs:279): `s2` is the
state with the temp directory created; `create_new` fails if the path
already exists. -/
def buildStage2 (env : Env) (s2 : S) (archive_kind : ArchiveKind)
    (entries : List NewArchiveMember) (output d f : RPath) : BuildResult :=
  match fsRead s2 f with
  | some _ => .ioError (dropTempDir s2 d f) (.otherErr "couldn't create the temp file")
  | none =>
    buildStage3 env (logEv (fsWrite s2 f []) (.createdTempFile f))
      archive_kind entries output d f

/-- Embedding of `ArArchiveBuilder::build_inner` (archive.rs:218): resolve the kind,
resolve every entry, create a temp directory next to the output (inside
`output.parent()`), create `tmp.a` inside it, stream the encoder's output
into it, drop the source archive maps, rename onto the output, remove the
temp directory. On an early error return the `TempDir` guard removes the
directory and its contents; a failing `close` leaves the (already
renamed-out-of) directory behind. -/
def build_inner (env : Env) (s : S) (output : RPath) : BuildResult :=
  match archiveKindOf? s.target.archive_format with
  | none => .fatalUnknownKind s s.target.archive_format
  | some archive_kind =>
    match resolveEntries s s.entries with
    | .panic s1 => .panic s1
    | .err s1 e => .ioError s1 e
    | .ok s1 entries =>
      if env.tmpdirOk then
        buildStage2 env
          (logEv
            { s1 with
                tempCounter := s1.tempCounter + 1,
                dirs := tempDirPath s1.tempCounter output.parentRepr :: s1.dirs }
            (.createdTempDir (tempDirPath s1.tempCounter output.parentRepr)))
          archive_kind entries output
          (tempDirPath s1.tempCounter output.parentRepr)
          (joinTmpA (tempDirPath s1.tempCounter output.parentRepr))
      else .ioError s1 (.otherErr "couldn't create a directory for the temp file")

/-- Outcome of the outer `build` (archive.rs:206): the returned bool, a
fatal diagnostic (`ArchiveBuildFailure` or `UnknownArchiveKind`), or a
panic. -/
inductive FinalResult where
  | returned (s : S) (any_members : Bool)
  | fatal (s : S)
  | panicked (s : S)
deriving DecidableEq

/-- Embedding of `ArchiveBuilder::build` for `ArArchiveBuilder`: every `Err` from
`build_inner` becomes `emit_fatal (ArchiveBuildFailure)`. -/
def build (env : Env) (s : S) (output : RPath) : FinalResult :=
  match build_inner env s output with
  | .ok s1 any_members => .returned s1 any_members
  | .ioError s1 _ => .fatal s1
  | .fatalUnknownKind s1 _ => .fatal s1
  | .panic s1 => .panicked s1

/-! ### Observers and derived notions used by the statements -/

/-- The state carried by a `StepResult`, whatever the outcome. -/
def StepResult.state {α : Type} : StepResult α → S
  | .ok s _ => s
  | .err s _ => s
  | .panic s => s

/-- Whether a `StepResult` is a success. -/
def StepResult.isOk {α : Type} : StepResult α → Bool
  | .ok _ _ => true
  | _ => false

/-- Whether a `StepResult` is an `InvalidData` error. -/
def StepResult.isInvalidDataErr {α : Type} : StepResult α → Bool
  | .err _ .invalidData => true
  | _ => false

/-- The decoded `(name, file_range)` list of a member list all of whose
entries read and whose names all decode; `none` when some member fails. -/
def okMembers? : List MemberRead → Option (List (String × (Nat × Nat)))
  | [] => some []
  | .okm (some n) r :: rest => (okMembers? rest).map (fun ds => (n, r) :: ds)
  | .okm none _ :: _ => none
  | .readErr :: _ => none

/-- The entries the member loop appends for decoded members `ds`. -/
def memberEntries (archive_index : Nat) (skip : String → Bool)
    (ds : List (String × (Nat × Nat))) : List (String × ArchiveEntry) :=
  (ds.filter (fun d => !skip d.1)).map (fun d => (d.1, .fromArchive archive_index d.2))

/-! ### Concrete fixtures for witnesses and counterexamples -/

/-- A plain linux/gnu target: the fat-archive gate is off. -/
def linuxTarget : Target :=
  { llvm_target := "x86_64-unknown-linux-gnu", arch := "x86_64", archive_format := "gnu" }

/-- The freshly created, empty session over a target and a filesystem. -/
def initS (t : Target) (fs : List (RPath × List Byte)) : S :=
  { target := t, src_archives := [], entries := [], fs := fs, dirs := [],
    tempCounter := 0, events := [] }

/-- Oracles that fail every parse and encode; examples override fields. -/
def env0 : Env :=
  { parseFat32 := fun _ => none, parseFat64 := fun _ => none,
    parseArchive := fun _ => none, encode := fun _ _ _ _ => none,
    tmpdirOk := true, renameOk := true, closeOk := true }

def pathA : RPath :=
  { repr := "/w/a.o", fileNameOs? := some "a.o", fileNameUtf8 := true, parentRepr := "/w" }

def pathB : RPath :=
  { repr := "/w/b.a", fileNameOs? := some "b.a", fileNameUtf8 := true, parentRepr := "/w" }

def pathC : RPath :=
  { repr := "/w/c.o", fileNameOs? := some "c.o", fileNameUtf8 := true, parentRepr := "/w" }

def pathOut : RPath :=
  { repr := "/w/out.a", fileNameOs? := some "out.a", fileNameUtf8 := true, parentRepr := "/w" }

/-- The filesystem root: `Path::file_name()` returns `None` on it. -/
def rootPath : RPath :=
  { repr := "/", fileNameOs? := none, fileNameUtf8 := true, parentRepr := "" }

def zipTarget : Target :=
  { llvm_target := "x86_64-unknown-linux-gnu", arch := "x86_64", archive_format := "zip" }

def parse1 (b : List Byte) : Option (List MemberRead) :=
  if b = [1, 2] then some [.okm (some "m1.o") (0, 1), .okm (some "m2.o") (1, 1)]
  else none

def env1 : Env := { env0 with parseArchive := parse1 }

def parse9 (b : List Byte) : Option (List MemberRead) :=
  if b = [1, 2, 3] then
    some [.okm (some "m1.o") (0, 1), .okm (some "lib.rmeta") (1, 1),
          .okm (some "m2.o") (2, 1)]
  else none

def env9 : Env := { env0 with parseArchive := parse9 }

/-- An x86_64 apple-macosx target: the extraction gate is on. -/
def macTarget : Target :=
  { llvm_target := "x86_64-apple-macosx10.7.0", arch := "x86_64", archive_format := "darwin" }

def fatPath : RPath :=
  { repr := "/w/fat.a", fileNameOs? := some "fat.a", fileNameUtf8 := true, parentRepr := "/w" }

def parseFat4 (b : List Byte) : Option (List FatSlice) :=
  if b = [9, 9] then some [{ arch := .X86_64, offset := 0, size := 1 }] else none

def parseAr4 (b : List Byte) : Option (List MemberRead) :=
  if b = [9] then some [.okm (some "m.o") (0, 1)] else none

def env4 : Env := { env0 with parseFat32 := parseFat4, parseArchive := parseAr4 }

/-- An i686 apple-macosx target: gate on, architecture neither aarch64 nor
x86_64. -/
def i686MacTarget : Target :=
  { llvm_target := "i686-apple-macosx10.6.0", arch := "i686", archive_format := "darwin" }

/-! ### C2: the FromArchive payload invariant -/

/-- The invariant for one entry against a retained source-archive list: a
`FromArchive` entry must point at a retained archive, inside its mapped
bytes. -/
def entryOkB (src : List (RPath × List Byte)) : String × ArchiveEntry → Bool
  | (_, .fromArchive i r) =>
    match src[i]? with
    | none => false
    | some a => decide (r.1 + r.2 ≤ a.2.length)
  | (_, .file _) => true

/-- C2's invariant over a session state: every `FromArchive` entry's
`archive_index` refers to a retained source archive and its `file_range`
lies inside that archive's mapped bytes (so the slice taken at build time
is in bounds). -/
def sessionInv (s : S) : Bool := s.entries.all (entryOkB s.src_archives)

/-- Honesty of the external archive parser: reported member ranges lie
inside the parsed buffer (the `object` crate guarantees this for parsed
archives). -/
def ParseSound (env : Env) : Prop :=
  ∀ bytes ms, env.parseArchive bytes = some ms →
    ∀ n r, MemberRead.okm (some n) r ∈ ms → r.1 + r.2 ≤ bytes.length

def parse2 (b : List Byte) : Option (List MemberRead) :=
  if b = [7] then some [.okm (some "m.o") (0, 1), .readErr] else none

def env2 : Env := { env0 with parseArchive := parse2 }

def FinalResult.isPanicked : FinalResult → Bool
  | .panicked _ => true
  | _ => false

def parseW2 (b : List Byte) : Option (List MemberRead) :=
  if b = [7] then some [.okm (some "m.o") (0, 1)] else none

def envW2 : Env := { env0 with parseArchive := parseW2 }

def parse7no (b : List Byte) : Option (List FatSlice) :=
  if b = [9, 9] then some [{ arch := .Aarch64, offset := 0, size := 1 }] else none

def env7 : Env := { env0 with parseFat32 := parse7no }

def env7d : Env := { env0 with parseFat64 := parseFat4 }

/-! ### The build write protocol: supporting lemmas -/

/-- The temp directory `build_inner` creates next to `output`. -/
def buildTmpDir (s : S) (output : RPath) : RPath :=
  tempDirPath s.tempCounter output.parentRepr

/-- The temp file `build_inner` streams the archive into. -/
def buildTmpFile (s : S) (output : RPath) : RPath :=
  joinTmpA (tempDirPath s.tempCounter output.parentRepr)

/-- The state a fully successful `build_inner` ends in. -/
def buildFinalState (s : S) (output : RPath) (bytes : List Byte) (evs : List Ev) : S :=
  { target := s.target,
    src_archives := [],
    entries := s.entries,
    fs := (output, bytes) ::
      ((s.fs.filter (fun q => !decide (q.1 = buildTmpFile s output))).filter
        (fun q => !decide (q.1 = output))),
    dirs := s.dirs.filter (fun x => !decide (x = buildTmpDir s output)),
    tempCounter := s.tempCounter + 1,
    events := s.events ++ evs ++
      [.createdTempDir (buildTmpDir s output), .createdTempFile (buildTmpFile s output),
       .wroteStream (buildTmpFile s output), .droppedMaps,
       .renamed (buildTmpFile s output) output, .removedTempDir (buildTmpDir s output)] }

/-- The state carried by a `BuildResult`, whatever the outcome. -/
def BuildResult.state : BuildResult → S
  | .ok s _ => s
  | .ioError s _ => s
  | .fatalUnknownKind s _ => s
  | .panic s => s

/-- Whether a `BuildResult` is an I/O error (reported fatally by `build`). -/
def BuildResult.isIoError : BuildResult → Bool
  | .ioError _ _ => true
  | _ => false

def env5 : Env := { env0 with encode := fun _ _ _ _ => some [1, 2], closeOk := false }

def envA : Env := { env0 with encode := fun _ _ _ _ => some [5] }

def sW5 : S :=
  { initS linuxTarget [(pathA, [3])] with entries := [("a.o", ArchiveEntry.file pathA)] }

def env10 : Env := { env0 with encode := fun _ _ _ _ => some [1] }

/-! ### The member loop of `add_archive` -/

theorem addMembers_ok_spec (skip : String → Bool) (i : Nat) (ms : List MemberRead) :
    ∀ (s : S) (ds : List (String × (Nat × Nat))), okMembers? ms = some ds →
      addMembers s i skip ms =
        .ok { s with entries := s.entries ++ memberEntries i skip ds } () := by
  induction ms with
  | nil =>
    intro s ds h
    simp only [okMembers?, Option.some.injEq] at h
    subst h
    simp [addMembers, memberEntries]
  | cons m rest ih =>
    intro s ds h
    cases m with
    | readErr => simp [okMembers?] at h
    | okm name? r =>
      cases name? with
      | none => simp [okMembers?] at h
      | some n =>
        simp only [okMembers?] at h
        cases hrest : okMembers? rest with
        | none => rw [hrest] at h; simp at h
        | some ds' =>
          rw [hrest] at h
          simp only [Option.map_some', Option.some.injEq] at h
          subst h
          by_cases hsk : skip n
          · simp only [addMembers, hsk, if_true]
            rw [ih s ds' hrest]
            simp [memberEntries, List.filter_cons, hsk]
          · simp only [addMembers, hsk, if_false]
            rw [ih { s with entries := s.entries ++ [(n, ArchiveEntry.fromArchive i r)] }
              ds' hrest]
            simp [memberEntries, List.filter_cons, hsk, List.append_assoc]

/-- A successful `add_archive_core` on a path that is not yet retained:
it opens the file once, appends exactly the non-skipped decoded members in
container order, and retains the mapped archive at the end of the list. -/
theorem add_archive_core_ok_spec (env : Env) (s : S) (p : RPath) (skip : String → Bool)
    (map : List Byte) (ms : List MemberRead) (ds : List (String × (Nat × Nat)))
    (hfresh : s.src_archives.any (fun a => decide (a.1 = p)) = false)
    (hmap : fsRead s p = some map)
    (hparse : env.parseArchive map = some ms)
    (hok : okMembers? ms = some ds) :
    add_archive_core env s p skip = .ok
      { s with events := s.events ++ [.openedFile p],
               entries := s.entries ++ memberEntries s.src_archives.length skip ds,
               src_archives := s.src_archives ++ [(p, map)] } () := by
  unfold add_archive_core
  simp only [hfresh, Bool.false_eq_true, if_false, hmap, hparse]
  rw [addMembers_ok_spec skip _ ms (logEv s (.openedFile p)) ds hok]
  simp [logEv]

/-- A retained path short-circuits `add_archive_core` with no effect. -/
theorem add_archive_core_retained (env : Env) (s : S) (p : RPath) (skip : String → Bool)
    (h : s.src_archives.any (fun a => decide (a.1 = p)) = true) :
    add_archive_core env s p skip = .ok s () := by
  unfold add_archive_core
  simp [h]

/-- When the target's `llvm_target` does not mention `-apple-macosx`,
`add_archive` is the core routine: no extraction is attempted. -/
theorem add_archive_no_gate (env : Env) (s : S) (p : RPath) (skip : String → Bool)
    (h : strContains s.target.llvm_target "-apple-macosx" = false) :
    add_archive env s p skip = add_archive_core env s p skip := by
  unfold add_archive
  simp [h]

/-! ### C3: add_file -/

/-- Helper: `add_file` on a path with a UTF-8 base name appends exactly one
entry and changes nothing else. -/
theorem add_file_ok (s : S) (p : RPath) (n : String)
    (h1 : p.fileNameOs? = some n) (h2 : p.fileNameUtf8 = true) :
    add_file s p = .ok { s with entries := s.entries ++ [(n, .file p)] } () := by
  unfold add_file
  rw [h1]
  simp [h2]

/-- C3 (amended): for every path argument that has a UTF-8 base name,
`add_file` appends exactly one `StandaloneFile` entry whose name is the
file's base name, and changes nothing else in the session or the world (in
particular it performs no I/O and cannot return an error). The amendment:
a path without a base name, or with a non-UTF-8 one, makes the call panic
(the two `unwrap`s of archive.rs:199), so "cannot fail (no panic)" does not
hold for every path argument. -/
theorem add_file_appends_standalone (s : S) (p : RPath) (n : String)
    (h1 : p.fileNameOs? = some n) (h2 : p.fileNameUtf8 = true) :
    add_file s p = .ok { s with entries := s.entries ++ [(n, .file p)] } () :=
  add_file_ok s p n h1 h2

theorem add_file_appends_standalone_witness :
    add_file (initS linuxTarget []) pathA =
      .ok { initS linuxTarget [] with entries := [("a.o", .file pathA)] } () := by
  have h := add_file_appends_standalone (initS linuxTarget []) pathA "a.o" rfl rfl
  simpa using h

/-- C3, counterexample: `add_file` on the root path (whose
`Path::file_name()` is `None`) panics on the first `unwrap`, refuting
"no failure possible at this call" for every path argument. -/
theorem add_file_rootpath_panics :
    add_file (initS linuxTarget []) rootPath = .panic (initS linuxTarget []) := by
  rfl

/-! ### C6: unknown archive kind -/

/-- C6: when the configured archive format tag is none of `gnu`, `bsd`,
`darwin`, `coff`, `aix_big`, `build_inner` aborts through the fatal
`UnknownArchiveKind` diagnostic with the state returned untouched: the
abort happens before any I/O, so no output or temporary file is created
(the result does not even depend on the environment oracles). -/
theorem unknown_kind_fatal_before_io (env : Env) (s : S) (output : RPath)
    (h : s.target.archive_format ∉ (["gnu", "bsd", "darwin", "coff", "aix_big"] : List String)) :
    build_inner env s output = .fatalUnknownKind s s.target.archive_format := by
  have hk : archiveKindOf? s.target.archive_format = none := by
    unfold archiveKindOf?
    split_ifs with g1 g2 g3 g4 g5 <;> simp_all
  unfold build_inner
  rw [hk]

theorem unknown_kind_fatal_before_io_witness :
    build_inner env0 (initS zipTarget []) pathOut =
      .fatalUnknownKind (initS zipTarget []) "zip" := by
  have h := unknown_kind_fatal_before_io env0 (initS zipTarget []) pathOut (by decide)
  simpa using h

/-! ### C1: insertion order -/

/-- C1: entry order is insertion order. Starting from any session state, the
sequence `add_file A`, `add_archive B skip` (where `B` parses to members
`m1` then `m2`, neither skipped), `add_file C` succeeds and appends exactly
`A, m1, m2, C` to the entry sequence, in that order. (Stated for a target
without the mach-o extraction gate, so `B` itself is the effective path.) -/
theorem entry_order_insertion (env : Env) (s0 : S) (A B C : RPath) (skip : String → Bool)
    (nameA nameC m1 m2 : String) (r1 r2 : Nat × Nat) (bytesB : List Byte)
    (hA1 : A.fileNameOs? = some nameA) (hA2 : A.fileNameUtf8 = true)
    (hC1 : C.fileNameOs? = some nameC) (hC2 : C.fileNameUtf8 = true)
    (happle : strContains s0.target.llvm_target "-apple-macosx" = false)
    (hfresh : s0.src_archives.any (fun a => decide (a.1 = B)) = false)
    (hmap : fsRead s0 B = some bytesB)
    (hparse : env.parseArchive bytesB = some [.okm (some m1) r1, .okm (some m2) r2])
    (hsk1 : skip m1 = false) (hsk2 : skip m2 = false) :
    ∃ s1 s2 s3, add_file s0 A = .ok s1 () ∧ add_archive env s1 B skip = .ok s2 () ∧
      add_file s2 C = .ok s3 () ∧
      s3.entries = s0.entries ++
        [(nameA, .file A), (m1, .fromArchive s0.src_archives.length r1),
         (m2, .fromArchive s0.src_archives.length r2), (nameC, .file C)] := by
  have h1 := add_file_ok s0 A nameA hA1 hA2
  have h2 := add_archive_core_ok_spec env
    { s0 with entries := s0.entries ++ [(nameA, ArchiveEntry.file A)] } B skip
    bytesB [.okm (some m1) r1, .okm (some m2) r2] [(m1, r1), (m2, r2)]
    hfresh hmap hparse (by simp [okMembers?])
  have h3 := add_file_ok
    { s0 with
      entries := (s0.entries ++ [(nameA, ArchiveEntry.file A)]) ++
        memberEntries s0.src_archives.length skip [(m1, r1), (m2, r2)],
      src_archives := s0.src_archives ++ [(B, bytesB)],
      events := s0.events ++ [Ev.openedFile B] } C nameC hC1 hC2
  refine ⟨{ s0 with entries := s0.entries ++ [(nameA, ArchiveEntry.file A)] },
    { s0 with
      entries := (s0.entries ++ [(nameA, ArchiveEntry.file A)]) ++
        memberEntries s0.src_archives.length skip [(m1, r1), (m2, r2)],
      src_archives := s0.src_archives ++ [(B, bytesB)],
      events := s0.events ++ [Ev.openedFile B] },
    { s0 with
      entries := ((s0.entries ++ [(nameA, ArchiveEntry.file A)]) ++
        memberEntries s0.src_archives.length skip [(m1, r1), (m2, r2)]) ++
        [(nameC, ArchiveEntry.file C)],
      src_archives := s0.src_archives ++ [(B, bytesB)],
      events := s0.events ++ [Ev.openedFile B] },
    h1, ?_, ?_, ?_⟩
  · rw [add_archive_no_gate env
      { s0 with entries := s0.entries ++ [(nameA, ArchiveEntry.file A)] } B skip happle]
    exact h2
  · exact h3
  · simp [memberEntries, List.filter_cons, hsk1, hsk2, List.append_assoc]

theorem entry_order_insertion_witness :
    ∃ s1 s2 s3,
      add_file (initS linuxTarget [(pathB, [1, 2])]) pathA = .ok s1 () ∧
      add_archive env1 s1 pathB (fun _ => false) = .ok s2 () ∧
      add_file s2 pathC = .ok s3 () ∧
      s3.entries = [("a.o", .file pathA), ("m1.o", .fromArchive 0 (0, 1)),
        ("m2.o", .fromArchive 0 (1, 1)), ("c.o", .file pathC)] := by
  obtain ⟨s1, s2, s3, g1, g2, g3, g4⟩ := entry_order_insertion env1
    (initS linuxTarget [(pathB, [1, 2])]) pathA pathB pathC (fun _ => false)
    "a.o" "c.o" "m1.o" "m2.o" (0, 1) (1, 1) [1, 2]
    rfl rfl rfl rfl (by decide) (by decide) (by decide) (by decide) rfl rfl
  exact ⟨s1, s2, s3, g1, g2, g3, by rw [g4]; decide⟩

/-! ### C9: skip predicate correctness -/

/-- C9: for every member of an archive added via `add_archive`, a member
whose decoded name the skip predicate rejects is never appended, and the
remaining members are appended in unchanged relative (container) order.
First conjunct: the member loop itself (the only place `add_archive`
appends entries, whatever the effective path) appends exactly the filter of
the decoded member list by the negated predicate, in container order.
Second conjunct: the same equation for a full `add_archive` call on a fresh
path (stated for a target without the mach-o extraction gate). -/
theorem skip_filter_spec :
    (∀ (s : S) (archive_index : Nat) (skip : String → Bool) (ms : List MemberRead)
       (ds : List (String × (Nat × Nat))), okMembers? ms = some ds →
       addMembers s archive_index skip ms = .ok
         { s with entries := (s.entries ++
             (ds.filter (fun d => !skip d.1)).map
               (fun d => (d.1, ArchiveEntry.fromArchive archive_index d.2))) } ()) ∧
    (∀ (env : Env) (s : S) (p : RPath) (skip : String → Bool)
       (map : List Byte) (ms : List MemberRead) (ds : List (String × (Nat × Nat))),
       strContains s.target.llvm_target "-apple-macosx" = false →
       s.src_archives.any (fun a => decide (a.1 = p)) = false →
       fsRead s p = some map →
       env.parseArchive map = some ms →
       okMembers? ms = some ds →
       ∃ s', add_archive env s p skip = .ok s' () ∧
         s'.entries = s.entries ++
           (ds.filter (fun d => !skip d.1)).map
             (fun d => (d.1, ArchiveEntry.fromArchive s.src_archives.length d.2))) := by
  constructor
  · intro s archive_index skip ms ds hok
    have h := addMembers_ok_spec skip archive_index ms s ds hok
    simpa [memberEntries] using h
  · intro env s p skip map ms ds happle hfresh hmap hparse hok
    rw [add_archive_no_gate env s p skip happle]
    refine ⟨_, add_archive_core_ok_spec env s p skip map ms ds hfresh hmap hparse hok, ?_⟩
    simp [memberEntries]

theorem skip_filter_spec_witness :
    (∃ s', addMembers (initS linuxTarget []) 0 (fun n => decide (n = "lib.rmeta"))
        [.okm (some "m1.o") (0, 1), .okm (some "lib.rmeta") (1, 1)] = .ok s' () ∧
      s'.entries = [("m1.o", .fromArchive 0 (0, 1))]) ∧
    (∃ s', add_archive env9 (initS linuxTarget [(pathB, [1, 2, 3])]) pathB
        (fun n => decide (n = "lib.rmeta")) = .ok s' () ∧
      s'.entries = [("m1.o", .fromArchive 0 (0, 1)), ("m2.o", .fromArchive 0 (2, 1))]) := by
  constructor
  · have h := skip_filter_spec.1 (initS linuxTarget []) 0 (fun n => decide (n = "lib.rmeta"))
      [.okm (some "m1.o") (0, 1), .okm (some "lib.rmeta") (1, 1)]
      [("m1.o", (0, 1)), ("lib.rmeta", (1, 1))] (by decide)
    exact ⟨_, h, by decide⟩
  · obtain ⟨s', g1, g2⟩ := skip_filter_spec.2 env9 (initS linuxTarget [(pathB, [1, 2, 3])])
      pathB (fun n => decide (n = "lib.rmeta")) [1, 2, 3]
      [.okm (some "m1.o") (0, 1), .okm (some "lib.rmeta") (1, 1), .okm (some "m2.o") (2, 1)]
      [("m1.o", (0, 1)), ("lib.rmeta", (1, 1)), ("m2.o", (2, 1))]
      (by decide) (by decide) (by decide) (by decide) (by decide)
    exact ⟨s', g1, by rw [g2]; decide⟩

/-! ### State-shape lemmas for the member loop and core routine -/

/-- Whatever the outcome, the member loop only appends `FromArchive` entries
for members present in the list, and changes nothing else. -/
theorem addMembers_state (i : Nat) (skip : String → Bool) (ms : List MemberRead) :
    ∀ s : S, ∃ new, (addMembers s i skip ms).state = { s with entries := s.entries ++ new } ∧
      ∀ e ∈ new, ∃ n r, e = (n, ArchiveEntry.fromArchive i r) ∧
        MemberRead.okm (some n) r ∈ ms := by
  induction ms with
  | nil =>
    intro s
    exact ⟨[], by simp [addMembers, StepResult.state], by simp⟩
  | cons m rest ih =>
    intro s
    cases m with
    | readErr => exact ⟨[], by simp [addMembers, StepResult.state], by simp⟩
    | okm name? r =>
      cases name? with
      | none => exact ⟨[], by simp [addMembers, StepResult.state], by simp⟩
      | some n =>
        by_cases hsk : skip n
        · obtain ⟨new, h1, h2⟩ := ih s
          refine ⟨new, ?_, ?_⟩
          · simpa [addMembers, hsk] using h1
          · intro e he
            obtain ⟨n', r', he', hm⟩ := h2 e he
            exact ⟨n', r', he', List.mem_cons_of_mem _ hm⟩
        · obtain ⟨new, h1, h2⟩ :=
            ih { s with entries := s.entries ++ [(n, ArchiveEntry.fromArchive i r)] }
          refine ⟨(n, ArchiveEntry.fromArchive i r) :: new, ?_, ?_⟩
          · have hstep : addMembers s i skip (MemberRead.okm (some n) r :: rest) =
                addMembers { s with entries := s.entries ++ [(n, ArchiveEntry.fromArchive i r)] }
                  i skip rest := by
              simp [addMembers, hsk]
            rw [hstep, h1]
            simp [List.append_assoc]
          · intro e he
            rcases List.mem_cons.mp he with he | he
            · exact ⟨n, r, he, List.mem_cons_self _ _⟩
            · obtain ⟨n', r', he', hm⟩ := h2 e he
              exact ⟨n', r', he', List.mem_cons_of_mem _ hm⟩

/-- A successful `add_archive_core` leaves the target and filesystem alone
and always ends with the path retained in the source-archive list. -/
theorem add_archive_core_ok_facts (env : Env) (s : S) (p : RPath) (skip : String → Bool)
    (s1 : S) (u : Unit) (h : add_archive_core env s p skip = .ok s1 u) :
    s1.target = s.target ∧ s1.fs = s.fs ∧
    s1.src_archives.any (fun a => decide (a.1 = p)) = true := by
  unfold add_archive_core at h
  split at h
  case isTrue hd =>
    cases h
    exact ⟨rfl, rfl, hd⟩
  case isFalse hd =>
    split at h
    case h_1 => simp at h
    case h_2 map hmap =>
      split at h
      case h_1 => simp at h
      case h_2 ms hms =>
        split at h
        case h_1 s2 u2 ha =>
          obtain ⟨new, hst, _⟩ :=
            addMembers_state s.src_archives.length skip ms (logEv s (.openedFile p))
          rw [ha] at hst
          simp only [StepResult.state] at hst
          subst hst
          cases h
          refine ⟨rfl, rfl, ?_⟩
          simp [logEv, List.any_append]
        all_goals simp_all

/-! ### C4: idempotence of add_archive -/

/-- C4 (amended): when the mach-o extraction gate is off (the target's
`llvm_target` does not mention `-apple-macosx`), `add_archive` is idempotent
per path: after a first successful call, a second call with the same path
returns success and changes nothing — the effective path is retained in the
source-archive list, so the dedup check short-circuits (a given path is
mapped at most once). The amendment excludes apple-macosx targets, where a
fat archive with a matching slice is re-extracted to a fresh temporary path
on every call and the dedup check therefore does not fire (see the
counterexample). -/
theorem add_archive_idempotent_no_extraction (env : Env) (s : S) (p : RPath)
    (skip skip' : String → Bool)
    (happle : strContains s.target.llvm_target "-apple-macosx" = false)
    (s1 : S) (hfirst : add_archive env s p skip = .ok s1 ()) :
    add_archive env s1 p skip' = .ok s1 () := by
  rw [add_archive_no_gate env s p skip happle] at hfirst
  obtain ⟨ht, _, hr⟩ := add_archive_core_ok_facts env s p skip s1 () hfirst
  have happle1 : strContains s1.target.llvm_target "-apple-macosx" = false := by
    rw [ht]; exact happle
  rw [add_archive_no_gate env s1 p skip' happle1]
  exact add_archive_core_retained env s1 p skip' hr

theorem add_archive_idempotent_no_extraction_witness :
    ∃ s1, add_archive env1 (initS linuxTarget [(pathB, [1, 2])]) pathB (fun _ => false) =
        .ok s1 () ∧
      add_archive env1 s1 pathB (fun _ => true) = .ok s1 () := by
  have g1 : add_archive env1 (initS linuxTarget [(pathB, [1, 2])]) pathB (fun _ => false) =
      .ok ((add_archive env1 (initS linuxTarget [(pathB, [1, 2])]) pathB
        (fun _ => false)).state) () := by decide
  exact ⟨_, g1, add_archive_idempotent_no_extraction env1 _ pathB _ (fun _ => true)
    (by decide) _ g1⟩

/-- C4, counterexample: on an apple-macosx target, adding the same fat
archive twice duplicates its members. Each call extracts the matching slice
to a fresh temporary path, so the dedup check (which compares effective
paths) never fires: both calls succeed, and the entry list after the second
call differs from (is twice as long as) the list after the first. -/
theorem add_archive_second_call_adds_again :
    (add_archive env4 (initS macTarget [(fatPath, [9, 9])]) fatPath
      (fun _ => false)).isOk = true ∧
    (add_archive env4 (add_archive env4 (initS macTarget [(fatPath, [9, 9])]) fatPath
      (fun _ => false)).state fatPath (fun _ => false)).isOk = true ∧
    ((add_archive env4 (add_archive env4 (initS macTarget [(fatPath, [9, 9])]) fatPath
        (fun _ => false)).state fatPath (fun _ => false)).state).entries ≠
      ((add_archive env4 (initS macTarget [(fatPath, [9, 9])]) fatPath
        (fun _ => false)).state).entries := by
  refine ⟨by decide, by decide, by decide⟩

/-! ### C8: the extraction gate -/

/-- C8 (amended): the fat-extraction step is gated on the target's
`llvm_target` containing `-apple-macosx`, not on the architecture tag.
(a) Without the gate, `add_archive` is exactly the core routine — no
extraction work of any kind. (b) With the gate on but an architecture
other than `aarch64`/`x86_64`, the extractor is still invoked: it opens and
maps the candidate file first — an open failure propagates as the call's
error — and only then declines, after which `add_archive` proceeds on the
original path. The claim's "short-circuited entirely, no extraction-related
I/O occurs or can fail" therefore holds only for non-apple-macosx targets. -/
theorem extraction_gate_spec :
    (∀ (env : Env) (s : S) (p : RPath) (skip : String → Bool),
       strContains s.target.llvm_target "-apple-macosx" = false →
       add_archive env s p skip = add_archive_core env s p skip) ∧
    (∀ (env : Env) (s : S) (p : RPath) (skip : String → Bool),
       strContains s.target.llvm_target "-apple-macosx" = true →
       targetArchOf? s.target.arch = none →
       (fsRead s p = none → add_archive env s p skip = .err s .notFound) ∧
       (∀ map, fsRead s p = some map →
         add_archive env s p skip =
           add_archive_core env (logEv s (.openedFile p)) p skip)) := by
  constructor
  · intro env s p skip h
    exact add_archive_no_gate env s p skip h
  · intro env s p skip hg ha
    constructor
    · intro hnone
      unfold add_archive try_extract_macho_fat_archive
      simp [hg, hnone]
    · intro map hsome
      unfold add_archive try_extract_macho_fat_archive
      simp [hg, hsome, logEv, ha]

/-- C8, counterexample: on an apple-macosx target whose architecture is
`i686` (neither aarch64 nor x86_64), the extraction step is still invoked:
the candidate file is opened and mapped a first time by the extractor (two
`openedFile` events result), so `add_archive` is observably different from
the extraction-free core routine, refuting "short-circuited entirely and
never invoked" for every non-aarch64/x86_64 architecture. -/
theorem extraction_invoked_despite_other_arch :
    (add_archive env1 (initS i686MacTarget [(pathB, [1, 2])]) pathB
        (fun _ => false)).state.events = [.openedFile pathB, .openedFile pathB] ∧
    add_archive env1 (initS i686MacTarget [(pathB, [1, 2])]) pathB (fun _ => false) ≠
      add_archive_core env1 (initS i686MacTarget [(pathB, [1, 2])]) pathB
        (fun _ => false) := by
  refine ⟨by decide, by decide⟩

theorem extraction_gate_spec_witness :
    (add_archive env1 (initS linuxTarget [(pathB, [1, 2])]) pathB (fun _ => false) =
       add_archive_core env1 (initS linuxTarget [(pathB, [1, 2])]) pathB (fun _ => false)) ∧
    (add_archive env1 (initS i686MacTarget []) pathB (fun _ => false) =
       .err (initS i686MacTarget []) .notFound) ∧
    (add_archive env1 (initS i686MacTarget [(pathB, [1, 2])]) pathB (fun _ => false) =
       add_archive_core env1
         (logEv (initS i686MacTarget [(pathB, [1, 2])]) (.openedFile pathB)) pathB
         (fun _ => false)) := by
  refine ⟨extraction_gate_spec.1 env1 _ pathB _ (by decide),
    (extraction_gate_spec.2 env1 _ pathB _ (by decide) (by decide)).1 (by decide),
    (extraction_gate_spec.2 env1 _ pathB _ (by decide) (by decide)).2 [1, 2] (by decide)⟩

theorem entryOkB_extend (src ext : List (RPath × List Byte)) (e : String × ArchiveEntry)
    (h : entryOkB src e = true) : entryOkB (src ++ ext) e = true := by
  obtain ⟨n, pe⟩ := e
  cases pe with
  | file _ => simp [entryOkB]
  | fromArchive i r =>
    simp only [entryOkB] at h ⊢
    cases hg : src[i]? with
    | none => rw [hg] at h; simp at h
    | some a =>
      rw [hg] at h
      have hi : i < src.length := by
        by_contra hlt
        push_neg at hlt
        rw [List.getElem?_eq_none hlt] at hg
        cases hg
      rw [List.getElem?_append_left hi, hg]
      exact h

/-- The extraction step never touches the entry list, the retained source
archives or the target configuration, whatever its outcome. -/
theorem try_filter_state (s : S) (archs : List FatSlice) (ta : Architecture)
    (p : RPath) (m : List Byte) :
    ((try_filter_fat_archs s archs ta p m).state).entries = s.entries ∧
    ((try_filter_fat_archs s archs ta p m).state).src_archives = s.src_archives ∧
    ((try_filter_fat_archs s archs ta p m).state).target = s.target := by
  unfold try_filter_fat_archs
  split
  · exact ⟨rfl, rfl, rfl⟩
  · split
    · exact ⟨rfl, rfl, rfl⟩
    · split <;> exact ⟨rfl, rfl, rfl⟩

theorem try_extract_state (env : Env) (s : S) (p : RPath) :
    ((try_extract_macho_fat_archive env s p).state).entries = s.entries ∧
    ((try_extract_macho_fat_archive env s p).state).src_archives = s.src_archives ∧
    ((try_extract_macho_fat_archive env s p).state).target = s.target := by
  unfold try_extract_macho_fat_archive
  split
  · exact ⟨rfl, rfl, rfl⟩
  · split
    · exact ⟨rfl, rfl, rfl⟩
    · split
      · exact try_filter_state _ _ _ _ _
      · split
        · exact try_filter_state _ _ _ _ _
        · exact ⟨rfl, rfl, rfl⟩

/-- A successful `add_archive_core` preserves the invariant, assuming the
external parser reports in-bounds member ranges. -/
theorem add_archive_core_preserves_inv (env : Env) (hps : ParseSound env) (s : S)
    (hinv : sessionInv s = true) (p : RPath) (skip : String → Bool) (s' : S) (u : Unit)
    (h : add_archive_core env s p skip = .ok s' u) : sessionInv s' = true := by
  unfold add_archive_core at h
  split at h
  case isTrue hd =>
    cases h
    exact hinv
  case isFalse hd =>
    split at h
    case h_1 => simp at h
    case h_2 map hmap =>
      split at h
      case h_1 => simp at h
      case h_2 ms hms =>
        split at h
        case h_1 s2 u2 ha =>
          obtain ⟨new, hst, hmem⟩ :=
            addMembers_state s.src_archives.length skip ms (logEv s (.openedFile p))
          rw [ha] at hst
          simp only [StepResult.state] at hst
          subst hst
          cases h
          unfold sessionInv
          refine (List.all_eq_true).mpr ?_
          intro e he
          simp only [logEv] at he
          rcases List.mem_append.mp he with he | he
          · exact entryOkB_extend _ _ e ((List.all_eq_true).mp hinv e he)
          · obtain ⟨n, r, rfl, hin⟩ := hmem e he
            have hb := hps map ms hms n r hin
            simp only [entryOkB, logEv]
            rw [List.getElem?_concat_length]
            simpa using hb
        all_goals simp_all

/-- C2 (amended): the invariant "every FromArchive entry points inside a
retained source archive" is established and kept by `add_file` and by every
`add_archive` call that returns successfully (for a parser reporting
in-bounds ranges). The amendment drops the claim's coverage of `add_archive`
calls that fail partway through member iteration: such a call appends
entries whose `archive_index` equals the length the source-archive list
would have reached, but returns before the archive is retained, leaving
dangling entries (see the counterexample, where a subsequent `build`
panics). -/
theorem inv_preserved_by_successful_ops :
    (∀ (s : S) (p : RPath) (s' : S) (u : Unit), sessionInv s = true →
       add_file s p = .ok s' u → sessionInv s' = true) ∧
    (∀ (env : Env) (s : S) (p : RPath) (skip : String → Bool) (s' : S) (u : Unit),
       ParseSound env → sessionInv s = true →
       add_archive env s p skip = .ok s' u → sessionInv s' = true) := by
  constructor
  · intro s p s' u hinv h
    unfold add_file at h
    split at h
    · simp at h
    · split at h
      · cases h
        unfold sessionInv at hinv ⊢
        rw [List.all_append]
        simp [hinv, entryOkB]
      · simp at h
  · intro env s p skip s' u hps hinv h
    unfold add_archive at h
    split at h
    case isTrue hg =>
      split at h
      case h_1 s1 p' hx =>
        have hst := try_extract_state env s p
        rw [hx] at hst
        simp only [StepResult.state] at hst
        have hinv1 : sessionInv s1 = true := by
          unfold sessionInv
          rw [hst.1, hst.2.1]
          exact hinv
        exact add_archive_core_preserves_inv env hps s1 hinv1 p' skip s' u h
      case h_2 s1 hx =>
        have hst := try_extract_state env s p
        rw [hx] at hst
        simp only [StepResult.state] at hst
        have hinv1 : sessionInv s1 = true := by
          unfold sessionInv
          rw [hst.1, hst.2.1]
          exact hinv
        exact add_archive_core_preserves_inv env hps s1 hinv1 p skip s' u h
      all_goals simp at h
    case isFalse hg =>
      exact add_archive_core_preserves_inv env hps s hinv p skip s' u h

/-- C2, counterexample: an `add_archive` call whose second member fails to
read returns an `InvalidData` error after having already appended a
`FromArchive` entry with `archive_index 0`, but before retaining the mapped
archive: the resulting session violates the invariant (the entry's index
points past the empty source-archive list), and a subsequent `build` on
that session panics when resolving the entry. -/
theorem inv_violated_after_failed_add_archive :
    (add_archive env2 (initS linuxTarget [(pathB, [7])]) pathB
      (fun _ => false)).isInvalidDataErr = true ∧
    sessionInv ((add_archive env2 (initS linuxTarget [(pathB, [7])]) pathB
      (fun _ => false)).state) = false ∧
    (build env2 ((add_archive env2 (initS linuxTarget [(pathB, [7])]) pathB
      (fun _ => false)).state) pathOut).isPanicked = true := by
  refine ⟨by decide, by decide, by decide⟩

theorem inv_preserved_by_successful_ops_witness :
    sessionInv ((add_file (initS linuxTarget [(pathB, [7])]) pathA).state) = true ∧
    sessionInv ((add_archive envW2 (initS linuxTarget [(pathB, [7])]) pathB
      (fun _ => false)).state) = true := by
  constructor
  · have h : add_file (initS linuxTarget [(pathB, [7])]) pathA =
        .ok ((add_file (initS linuxTarget [(pathB, [7])]) pathA).state) () := by decide
    exact inv_preserved_by_successful_ops.1 (initS linuxTarget [(pathB, [7])]) pathA _ ()
      (by decide) h
  · have h : add_archive envW2 (initS linuxTarget [(pathB, [7])]) pathB (fun _ => false) =
        .ok ((add_archive envW2 (initS linuxTarget [(pathB, [7])]) pathB
          (fun _ => false)).state) () := by decide
    refine inv_preserved_by_successful_ops.2 envW2 (initS linuxTarget [(pathB, [7])]) pathB
      (fun _ => false) _ () ?_ (by decide) h
    intro bytes ms hms n r hin
    unfold envW2 parseW2 at hms
    simp only at hms
    split at hms
    · cases hms
      simp at hin
      rcases hin with ⟨hn, hr⟩
      subst hr
      simp_all
    · cases hms

/-! ### C7: fat-binary slice extraction -/

theorem fsRead_fsWrite (s : S) (p : RPath) (d : List Byte) :
    fsRead (fsWrite s p d) p = some d := by
  simp [fsRead, fsLookup, fsWrite]

/-- C7: fat-binary slice extraction. (i) If neither the 32-bit nor the
64-bit fat header parses, the result is `none`: no substitution and no
error, whatever the architecture tag resolves to. (ii) When the 32-bit
header parses — the 64-bit parse is then never consulted — and no slice
matches the target architecture, the result is `none` without error.
(iii) When the 32-bit header parses and a slice matches, exactly that
slice's byte range is copied into a newly created temporary file (named
from the counter and the input's base name) whose path is returned.
(iv) The 64-bit variant is used only after the 32-bit parse fails, with
the same matching-slice behaviour. (v) Whenever extraction yields no
substitution, `add_archive` proceeds with the original path on the
post-extraction state, without an error. -/
theorem fat_extraction_spec :
    (∀ (env : Env) (s : S) (p : RPath) (map : List Byte), fsRead s p = some map →
       env.parseFat32 map = none → env.parseFat64 map = none →
       try_extract_macho_fat_archive env s p = .ok (logEv s (.openedFile p)) none) ∧
    (∀ (env : Env) (s : S) (p : RPath) (map : List Byte) (ta : Architecture)
       (archs : List FatSlice), fsRead s p = some map →
       targetArchOf? s.target.arch = some ta →
       env.parseFat32 map = some archs →
       archs.find? (fun a => decide (a.arch = ta)) = none →
       try_extract_macho_fat_archive env s p = .ok (logEv s (.openedFile p)) none) ∧
    (∀ (env : Env) (s : S) (p : RPath) (map : List Byte) (ta : Architecture)
       (archs : List FatSlice) (desired : FatSlice) (sfx : String),
       fsRead s p = some map →
       targetArchOf? s.target.arch = some ta →
       env.parseFat32 map = some archs →
       archs.find? (fun a => decide (a.arch = ta)) = some desired →
       p.fileNameOs? = some sfx →
       desired.offset + desired.size ≤ map.length →
       ∃ s', try_extract_macho_fat_archive env s p =
           .ok s' (some (tempFilePath s.tempCounter sfx)) ∧
         fsRead s' (tempFilePath s.tempCounter sfx) =
           some ((map.drop desired.offset).take desired.size)) ∧
    (∀ (env : Env) (s : S) (p : RPath) (map : List Byte) (ta : Architecture)
       (archs : List FatSlice) (desired : FatSlice) (sfx : String),
       fsRead s p = some map →
       targetArchOf? s.target.arch = some ta →
       env.parseFat32 map = none →
       env.parseFat64 map = some archs →
       archs.find? (fun a => decide (a.arch = ta)) = some desired →
       p.fileNameOs? = some sfx →
       desired.offset + desired.size ≤ map.length →
       ∃ s', try_extract_macho_fat_archive env s p =
           .ok s' (some (tempFilePath s.tempCounter sfx)) ∧
         fsRead s' (tempFilePath s.tempCounter sfx) =
           some ((map.drop desired.offset).take desired.size)) ∧
    (∀ (env : Env) (s : S) (p : RPath) (skip : String → Bool) (s1 : S),
       strContains s.target.llvm_target "-apple-macosx" = true →
       try_extract_macho_fat_archive env s p = .ok s1 none →
       add_archive env s p skip = add_archive_core env s1 p skip) := by
  refine ⟨?_, ?_, ?_, ?_, ?_⟩
  · intro env s p map hmap h32 h64
    unfold try_extract_macho_fat_archive
    simp only [hmap]
    cases targetArchOf? s.target.arch <;> simp [h32, h64]
  · intro env s p map ta archs hmap hta h32 hfind
    unfold try_extract_macho_fat_archive
    simp only [hmap, hta, h32]
    simp [try_filter_fat_archs, hfind]
  · intro env s p map ta archs desired sfx hmap hta h32 hfind hsfx hin
    have hdata : desired.data map =
        some ((map.drop desired.offset).take desired.size) := by
      simp [FatSlice.data, hin]
    unfold try_extract_macho_fat_archive
    simp only [hmap, hta, h32]
    unfold try_filter_fat_archs
    simp only [hfind, hsfx, hdata]
    exact ⟨_, rfl, fsRead_fsWrite _ _ _⟩
  · intro env s p map ta archs desired sfx hmap hta h32 h64 hfind hsfx hin
    have hdata : desired.data map =
        some ((map.drop desired.offset).take desired.size) := by
      simp [FatSlice.data, hin]
    unfold try_extract_macho_fat_archive
    simp only [hmap, hta, h32, h64]
    unfold try_filter_fat_archs
    simp only [hfind, hsfx, hdata]
    exact ⟨_, rfl, fsRead_fsWrite _ _ _⟩
  · intro env s p skip s1 hg hx
    unfold add_archive
    simp [hg, hx]

theorem fat_extraction_spec_witness :
    (try_extract_macho_fat_archive env0 (initS macTarget [(fatPath, [9, 9])]) fatPath =
       .ok (logEv (initS macTarget [(fatPath, [9, 9])]) (.openedFile fatPath)) none) ∧
    (try_extract_macho_fat_archive env7 (initS macTarget [(fatPath, [9, 9])]) fatPath =
       .ok (logEv (initS macTarget [(fatPath, [9, 9])]) (.openedFile fatPath)) none) ∧
    (∃ s', try_extract_macho_fat_archive env4 (initS macTarget [(fatPath, [9, 9])]) fatPath =
        .ok s' (some (tempFilePath 0 "fat.a")) ∧
      fsRead s' (tempFilePath 0 "fat.a") = some [9]) ∧
    (∃ s', try_extract_macho_fat_archive env7d (initS macTarget [(fatPath, [9, 9])]) fatPath =
        .ok s' (some (tempFilePath 0 "fat.a")) ∧
      fsRead s' (tempFilePath 0 "fat.a") = some [9]) ∧
    (add_archive env0 (initS macTarget [(fatPath, [9, 9])]) fatPath (fun _ => false) =
       add_archive_core env0
         (logEv (initS macTarget [(fatPath, [9, 9])]) (.openedFile fatPath)) fatPath
         (fun _ => false)) := by
  refine ⟨?_, ?_, ?_, ?_, ?_⟩
  · exact fat_extraction_spec.1 env0 _ fatPath [9, 9] (by decide) (by decide) (by decide)
  · exact fat_extraction_spec.2.1 env7 _ fatPath [9, 9] .X86_64
      [{ arch := .Aarch64, offset := 0, size := 1 }]
      (by decide) (by decide) (by decide) (by decide)
  · obtain ⟨s', g1, g2⟩ := fat_extraction_spec.2.2.1 env4 (initS macTarget [(fatPath, [9, 9])])
      fatPath [9, 9] .X86_64 [{ arch := .X86_64, offset := 0, size := 1 }]
      { arch := .X86_64, offset := 0, size := 1 } "fat.a"
      (by decide) (by decide) (by decide) (by decide) (by decide) (by decide)
    exact ⟨s', g1, g2⟩
  · obtain ⟨s', g1, g2⟩ := fat_extraction_spec.2.2.2.1 env7d
      (initS macTarget [(fatPath, [9, 9])])
      fatPath [9, 9] .X86_64 [{ arch := .X86_64, offset := 0, size := 1 }]
      { arch := .X86_64, offset := 0, size := 1 } "fat.a"
      (by decide) (by decide) (by decide) (by decide) (by decide) (by decide) (by decide)
    exact ⟨s', g1, g2⟩
  · exact fat_extraction_spec.2.2.2.2 env0 _ fatPath (fun _ => false) _ (by decide) (by decide)

theorem filter_of_lookup_none (fs : List (RPath × List Byte)) (f : RPath)
    (h : fsLookup fs f = none) : fs.filter (fun q => !decide (q.1 = f)) = fs := by
  rw [List.filter_eq_self]
  intro a ha
  unfold fsLookup at h
  rw [Option.map_eq_none'] at h
  rw [List.find?_eq_none] at h
  simpa using h a ha

theorem lookup_filter_none (fs : List (RPath × List Byte)) (g : RPath × List Byte → Bool)
    (f : RPath) (h : fsLookup fs f = none) : fsLookup (fs.filter g) f = none := by
  unfold fsLookup at h ⊢
  rw [Option.map_eq_none'] at h ⊢
  rw [List.find?_eq_none] at h ⊢
  intro x hx
  exact h x (List.mem_of_mem_filter hx)

theorem filter_ne_of_not_mem (l : List RPath) (d : RPath) (h : d ∉ l) :
    l.filter (fun x => !decide (x = d)) = l := by
  rw [List.filter_eq_self]
  intro a ha
  simp only [Bool.not_eq_true', decide_eq_false_iff_not]
  intro hx
  exact h (hx ▸ ha)

/-- Entry resolution only appends `openedFile` events; it never touches the
filesystem, the directories, the counter, the session fields or the target. -/
theorem resolveEntries_state (l : List (String × ArchiveEntry)) :
    ∀ s : S, ∃ evs, (resolveEntries s l).state = { s with events := s.events ++ evs } := by
  induction l with
  | nil =>
    intro s
    exact ⟨[], by simp [resolveEntries, StepResult.state]⟩
  | cons e rest ih =>
    intro s
    obtain ⟨en, entry⟩ := e
    cases entry with
    | fromArchive i r =>
      cases hg : s.src_archives[i]? with
      | none =>
        refine ⟨[], ?_⟩
        simp [resolveEntries, hg, StepResult.state]
      | some a =>
        by_cases hin : r.1 + r.2 ≤ a.2.length
        · obtain ⟨evs, hst⟩ := ih s
          refine ⟨evs, ?_⟩
          cases hr : resolveEntries s rest with
          | ok s2 ms =>
            rw [hr] at hst
            simp only [StepResult.state] at hst
            simp [resolveEntries, hg, hin, hr, StepResult.state, hst]
          | err s2 e2 =>
            rw [hr] at hst
            simp only [StepResult.state] at hst
            simp [resolveEntries, hg, hin, hr, StepResult.state, hst]
          | panic s2 =>
            rw [hr] at hst
            simp only [StepResult.state] at hst
            simp [resolveEntries, hg, hin, hr, StepResult.state, hst]
        · refine ⟨[], ?_⟩
          simp [resolveEntries, hg, hin, StepResult.state]
    | file fp =>
      cases hg : fsRead s fp with
      | none =>
        refine ⟨[], ?_⟩
        simp [resolveEntries, hg, StepResult.state]
      | some data =>
        obtain ⟨evs, hst⟩ := ih (logEv s (.openedFile fp))
        refine ⟨Ev.openedFile fp :: evs, ?_⟩
        simp only [logEv] at hst
        cases hr : resolveEntries { s with events := s.events ++ [Ev.openedFile fp] } rest with
        | ok s2 ms =>
          rw [hr] at hst
          simp only [StepResult.state] at hst
          simp [resolveEntries, hg, hr, StepResult.state, hst, logEv, List.append_assoc]
        | err s2 e2 =>
          rw [hr] at hst
          simp only [StepResult.state] at hst
          simp [resolveEntries, hg, hr, StepResult.state, hst, logEv, List.append_assoc]
        | panic s2 =>
          rw [hr] at hst
          simp only [StepResult.state] at hst
          simp [resolveEntries, hg, hr, StepResult.state, hst, logEv, List.append_assoc]

/-- A successful resolution yields one `NewArchiveMember` per entry. -/
theorem resolveEntries_ok_length (l : List (String × ArchiveEntry)) :
    ∀ (s s' : S) (ms : List NewArchiveMember),
      resolveEntries s l = .ok s' ms → ms.length = l.length := by
  induction l with
  | nil =>
    intro s s' ms h
    cases h
    rfl
  | cons e rest ih =>
    intro s s' ms h
    obtain ⟨en, entry⟩ := e
    cases entry with
    | fromArchive i r =>
      unfold resolveEntries at h
      split at h
      · simp at h
      case h_2 a hg =>
        split at h
        case isTrue hin =>
          split at h
          case h_1 hr =>
            cases h
            simpa using ih _ _ _ hr
          all_goals simp_all
        case isFalse => simp at h
    | file fp =>
      unfold resolveEntries at h
      split at h
      · simp at h
      case h_2 data hg =>
        split at h
        case h_1 hr =>
          cases h
          simpa using ih _ _ _ hr
        all_goals simp_all

/-- Exhaustive outcome analysis of the write protocol from the
created-temp-dir state `s2` on, for a fresh temp-file path. -/
theorem buildStage2_cases (env : Env) (s2 : S) (k : ArchiveKind)
    (ents : List NewArchiveMember) (output d f : RPath)
    (hf : fsRead s2 f = none) :
    (env.encode ents k false (decide (s2.target.arch = "arm64ec")) = none ∧
       buildStage2 env s2 k ents output d f =
         .ioError (dropTempDir (logEv (fsWrite s2 f []) (.createdTempFile f)) d f)
           (.otherErr "write_archive_to_stream")) ∨
    (∃ bytes, env.encode ents k false (decide (s2.target.arch = "arm64ec")) = some bytes ∧
      ((env.renameOk = false ∧
          buildStage2 env s2 k ents output d f =
            .ioError (dropTempDir (logEv
              { (logEv (fsWrite (logEv (fsWrite s2 f []) (.createdTempFile f)) f bytes)
                  (.wroteStream f)) with src_archives := [] } .droppedMaps) d f)
              (.otherErr "failed to rename archive file")) ∨
       (env.renameOk = true ∧ env.closeOk = false ∧
          buildStage2 env s2 k ents output d f =
            .ioError (logEv (fsWrite (fsRemove (logEv
              { (logEv (fsWrite (logEv (fsWrite s2 f []) (.createdTempFile f)) f bytes)
                  (.wroteStream f)) with src_archives := [] } .droppedMaps) f) output bytes)
              (.renamed f output))
              (.otherErr "failed to remove temporary directory")) ∨
       (env.renameOk = true ∧ env.closeOk = true ∧
          buildStage2 env s2 k ents output d f =
            .ok (logEv
              { (logEv (fsWrite (fsRemove (logEv
                  { (logEv (fsWrite (logEv (fsWrite s2 f []) (.createdTempFile f)) f bytes)
                      (.wroteStream f)) with src_archives := [] } .droppedMaps) f)
                  output bytes) (.renamed f output)) with
                dirs := (logEv (fsWrite (fsRemove (logEv
                  { (logEv (fsWrite (logEv (fsWrite s2 f []) (.createdTempFile f)) f bytes)
                      (.wroteStream f)) with src_archives := [] } .droppedMaps) f)
                  output bytes) (.renamed f output)).dirs.filter
                    (fun x => !decide (x = d)) } (.removedTempDir d))
              (!ents.isEmpty)))) := by
  unfold buildStage2
  simp only [hf]
  cases henc : env.encode ents k false (decide (s2.target.arch = "arm64ec")) with
  | none =>
    left
    refine ⟨rfl, ?_⟩
    unfold buildStage3
    simp only [show env.encode ents k false
      (decide ((logEv (fsWrite s2 f []) (.createdTempFile f)).target.arch = "arm64ec")) =
        none from henc]
  | some bytes =>
    right
    refine ⟨bytes, rfl, ?_⟩
    unfold buildStage3
    simp only [show env.encode ents k false
      (decide ((logEv (fsWrite s2 f []) (.createdTempFile f)).target.arch = "arm64ec")) =
        some bytes from henc]
    cases hrn : env.renameOk with
    | false =>
      left
      refine ⟨rfl, ?_⟩
      unfold buildStage4
      simp only [hrn, Bool.false_eq_true, if_false]
    | true =>
      right
      cases hcl : env.closeOk with
      | false =>
        left
        refine ⟨rfl, rfl, ?_⟩
        unfold buildStage4 buildStage5
        simp only [hrn, if_true, hcl, Bool.false_eq_true, if_false]
      | true =>
        right
        refine ⟨rfl, rfl, ?_⟩
        unfold buildStage4 buildStage5
        simp only [hrn, if_true, hcl]

/-- Lemma: `build_inner` reaches the write protocol in the post-resolve,
post-temp-dir state. -/
theorem build_inner_to_stage2 (env : Env) (s : S) (output : RPath) (k : ArchiveKind)
    (ents : List NewArchiveMember) (evs : List Ev)
    (hk : archiveKindOf? s.target.archive_format = some k)
    (hres : resolveEntries s s.entries = .ok { s with events := s.events ++ evs } ents)
    (ht : env.tmpdirOk = true) :
    build_inner env s output = buildStage2 env
      { s with
          tempCounter := s.tempCounter + 1,
          dirs := buildTmpDir s output :: s.dirs,
          events := (s.events ++ evs) ++ [.createdTempDir (buildTmpDir s output)] }
      k ents output (buildTmpDir s output) (buildTmpFile s output) := by
  unfold build_inner buildTmpDir buildTmpFile
  simp only [hk, hres, ht, if_true, logEv]

/-- With every oracle succeeding and the temp-file path fresh, `build_inner`
runs the full write protocol and ends in `buildFinalState`, returning
whether the entry list is non-empty. -/
theorem build_inner_all_ok (env : Env) (s : S) (output : RPath) (k : ArchiveKind)
    (ents : List NewArchiveMember) (bytes : List Byte) (evs : List Ev)
    (hk : archiveKindOf? s.target.archive_format = some k)
    (hres : resolveEntries s s.entries = .ok { s with events := s.events ++ evs } ents)
    (ht : env.tmpdirOk = true) (hrn : env.renameOk = true) (hcl : env.closeOk = true)
    (he : env.encode ents k false (decide (s.target.arch = "arm64ec")) = some bytes)
    (hfreshf : fsRead s (buildTmpFile s output) = none) :
    build_inner env s output =
      .ok (buildFinalState s output bytes evs) (!ents.isEmpty) := by
  rw [build_inner_to_stage2 env s output k ents evs hk hres ht]
  rcases buildStage2_cases env
      { s with
          tempCounter := s.tempCounter + 1,
          dirs := buildTmpDir s output :: s.dirs,
          events := (s.events ++ evs) ++ [.createdTempDir (buildTmpDir s output)] }
      k ents output (buildTmpDir s output) (buildTmpFile s output)
      (show fsRead _ (buildTmpFile s output) = none from hfreshf) with
    ⟨hn, _⟩ | ⟨bytes2, hsome, hcase⟩
  · have hn2 : env.encode ents k false (decide (s.target.arch = "arm64ec")) = none := hn
    rw [he] at hn2
    cases hn2
  · have hsome2 : env.encode ents k false (decide (s.target.arch = "arm64ec")) =
        some bytes2 := hsome
    rw [he] at hsome2
    cases hsome2
    rcases hcase with ⟨hrn2, _⟩ | ⟨_, hcl2, _⟩ | ⟨_, _, heq⟩
    · rw [hrn] at hrn2
      cases hrn2
    · rw [hcl] at hcl2
      cases hcl2
    · rw [heq]
      congr 1
      simp [buildFinalState, dropTempDir, fsRemove, fsWrite, logEv,
        List.filter_cons, List.filter_filter, List.append_assoc]

/-- Inversion: a successful `build_inner` returns exactly the non-emptiness
of the resolved entry list. -/
theorem build_inner_ok_inversion (env : Env) (s : S) (output : RPath) (s' : S) (b : Bool)
    (h : build_inner env s output = .ok s' b) :
    ∃ k s1 ents, archiveKindOf? s.target.archive_format = some k ∧
      resolveEntries s s.entries = .ok s1 ents ∧ b = !ents.isEmpty := by
  unfold build_inner at h
  split at h
  · simp at h
  case h_2 k hk =>
    split at h
    case h_3 s1 ents hres =>
      refine ⟨k, s1, ents, hk, hres, ?_⟩
      split at h
      case isFalse => simp at h
      case isTrue ht =>
        unfold buildStage2 at h
        split at h
        case h_1 => simp at h
        case h_2 =>
          unfold buildStage3 at h
          split at h
          case h_1 => simp at h
          case h_2 bytes henc =>
            unfold buildStage4 at h
            split at h
            case isTrue hrn =>
              unfold buildStage5 at h
              split at h
              case isTrue hcl =>
                cases h
                rfl
              case isFalse => simp at h
            case isFalse => simp at h
    all_goals simp at h

/-- Inversion of every error outcome of `build_inner` (for fresh temp
paths): either the protocol failed at or before the rename — then the
filesystem and the directory set are exactly as before the call — or the
rename succeeded and only the final temp-directory removal failed — then
the output path holds the complete new archive, the temp file is gone, and
the (empty) temp directory is left behind. -/
theorem build_inner_err_inversion (env : Env) (s : S) (output : RPath)
    (hfreshf : fsRead s (buildTmpFile s output) = none)
    (hfreshd : buildTmpDir s output ∉ s.dirs)
    (hfo : buildTmpFile s output ≠ output) (s' : S) (e : IOErr)
    (h : build_inner env s output = .ioError s' e) :
    (s'.fs = s.fs ∧ s'.dirs = s.dirs) ∨
    (env.closeOk = false ∧ ∃ bytes, fsRead s' output = some bytes ∧
      fsRead s' (buildTmpFile s output) = none ∧ buildTmpDir s output ∈ s'.dirs) := by
  have hff : s.fs.filter (fun q => !decide (q.1 = buildTmpFile s output)) = s.fs :=
    filter_of_lookup_none _ _ hfreshf
  have hfd : s.dirs.filter (fun x => !decide (x = buildTmpDir s output)) = s.dirs :=
    filter_ne_of_not_mem _ _ hfreshd
  cases hk : archiveKindOf? s.target.archive_format with
  | none =>
    unfold build_inner at h
    rw [hk] at h
    simp at h
  | some k =>
    cases hres : resolveEntries s s.entries with
    | panic s1 =>
      unfold build_inner at h
      rw [hk] at h
      simp only [hres] at h
      simp at h
    | err s1 e1 =>
      obtain ⟨evs, hst⟩ := resolveEntries_state s.entries s
      rw [hres] at hst
      simp only [StepResult.state] at hst
      subst hst
      unfold build_inner at h
      rw [hk] at h
      simp only [hres] at h
      cases h
      exact Or.inl ⟨rfl, rfl⟩
    | ok s1 ents =>
      obtain ⟨evs, hst⟩ := resolveEntries_state s.entries s
      rw [hres] at hst
      simp only [StepResult.state] at hst
      subst hst
      by_cases ht : env.tmpdirOk = true
      · rw [build_inner_to_stage2 env s output k ents evs hk hres ht] at h
        rcases buildStage2_cases env
            { s with
                tempCounter := s.tempCounter + 1,
                dirs := buildTmpDir s output :: s.dirs,
                events := (s.events ++ evs) ++ [.createdTempDir (buildTmpDir s output)] }
            k ents output (buildTmpDir s output) (buildTmpFile s output)
            (show fsRead _ (buildTmpFile s output) = none from hfreshf) with
          ⟨hn, heq⟩ | ⟨bytes, hsome, ⟨hrn, heq⟩ | ⟨hrn, hcl, heq⟩ | ⟨hrn, hcl, heq⟩⟩
        · rw [heq] at h
          cases h
          left
          constructor
          · simp [dropTempDir, fsRemove, fsWrite, logEv, List.filter_cons,
              List.filter_filter, hff]
          · simp [dropTempDir, fsRemove, fsWrite, logEv, List.filter_cons, hfd]
        · rw [heq] at h
          cases h
          left
          constructor
          · simp [dropTempDir, fsRemove, fsWrite, logEv, List.filter_cons,
              List.filter_filter, Bool.and_self, hff]
          · simp [dropTempDir, fsRemove, fsWrite, logEv, List.filter_cons, hfd]
        · rw [heq] at h
          cases h
          right
          refine ⟨hcl, bytes, ?_, ?_, ?_⟩
          · simp [fsRead, fsLookup, fsRemove, fsWrite, logEv, List.find?_cons]
          · have hnomem : ∀ (a : RPath) (b : List Byte), (a, b) ∈ s.fs →
                ¬a = buildTmpFile s output := by
              intro a b hab
              have hz := hfreshf
              unfold fsRead fsLookup at hz
              rw [Option.map_eq_none'] at hz
              rw [List.find?_eq_none] at hz
              simpa using hz (a, b) hab
            simp [fsRead, fsLookup, fsRemove, fsWrite, logEv, List.filter_cons,
              List.filter_filter, Bool.and_self, hff, List.find?_eq_none]
            exact ⟨fun hh => hfo hh.symm, fun a b hab _ => hnomem a b hab⟩
          · simp [fsRemove, fsWrite, logEv]
        · rw [heq] at h
          cases h
      · unfold build_inner at h
        rw [hk] at h
        simp only [hres] at h
        rw [if_neg ht] at h
        cases h
        exact Or.inl ⟨rfl, rfl⟩

/-! ### C5: the atomic write protocol -/

/-- C5 (amended): the atomic write protocol. Success conjunct: the archive
bytes are fully written to `tmp.a` inside a temporary directory created in
the output path's parent directory, all retained source-archive maps are
released, and only then is the temp file renamed onto the output path and
the temp directory removed — the event log ends with created-temp-dir,
created-temp-file, wrote-stream, dropped-maps, renamed, removed-temp-dir,
in that order, and no temp artifact remains. Failure conjunct: when any
step up to and including the rename fails, the output path and directory
set are left completely unchanged and no temp file remains; the amendment
is the final step — when only the closing removal of the (by then empty)
temp directory fails, `build` still reports a fatal error although the
rename has already replaced the output path with the complete new archive,
and the empty temp directory is left behind (see the counterexample). -/
theorem build_atomic_protocol (env : Env) (s : S) (output : RPath)
    (hfreshf : fsRead s (buildTmpFile s output) = none)
    (hfreshd : buildTmpDir s output ∉ s.dirs)
    (hfo : buildTmpFile s output ≠ output) :
    (∀ (k : ArchiveKind) (ents : List NewArchiveMember) (bytes : List Byte) (evs : List Ev),
       archiveKindOf? s.target.archive_format = some k →
       resolveEntries s s.entries = .ok { s with events := s.events ++ evs } ents →
       env.tmpdirOk = true → env.renameOk = true → env.closeOk = true →
       env.encode ents k false (decide (s.target.arch = "arm64ec")) = some bytes →
       ∃ s', build_inner env s output = .ok s' (!ents.isEmpty) ∧
         fsRead s' output = some bytes ∧
         fsRead s' (buildTmpFile s output) = none ∧
         buildTmpDir s output ∉ s'.dirs ∧
         (buildTmpDir s output).parentRepr = output.parentRepr ∧
         s'.src_archives = [] ∧
         s'.events = s.events ++ evs ++
           [.createdTempDir (buildTmpDir s output), .createdTempFile (buildTmpFile s output),
            .wroteStream (buildTmpFile s output), .droppedMaps,
            .renamed (buildTmpFile s output) output,
            .removedTempDir (buildTmpDir s output)]) ∧
    (∀ (s' : S) (e : IOErr), build_inner env s output = .ioError s' e →
       (s'.fs = s.fs ∧ s'.dirs = s.dirs) ∨
       (env.closeOk = false ∧ ∃ bytes, fsRead s' output = some bytes ∧
         fsRead s' (buildTmpFile s output) = none ∧ buildTmpDir s output ∈ s'.dirs)) := by
  constructor
  · intro k ents bytes evs hk hres ht hrn hcl he
    refine ⟨buildFinalState s output bytes evs,
      build_inner_all_ok env s output k ents bytes evs hk hres ht hrn hcl he hfreshf,
      ?_, ?_, ?_, rfl, rfl, rfl⟩
    · simp [fsRead, fsLookup, buildFinalState]
    · have h1 : fsLookup (s.fs.filter (fun q => !decide (q.1 = buildTmpFile s output)))
          (buildTmpFile s output) = none :=
        lookup_filter_none _ _ _ hfreshf
      have h2 := lookup_filter_none
        (s.fs.filter (fun q => !decide (q.1 = buildTmpFile s output)))
        (fun q => !decide (q.1 = output)) _ h1
      unfold fsRead fsLookup buildFinalState
      rw [List.find?_cons_of_neg]
      · unfold fsLookup at h2
        rw [Option.map_eq_none'] at h2
        rw [h2]
        rfl
      · simp
        exact fun hh => hfo hh.symm
    · simp [buildFinalState, List.mem_filter]
  · exact build_inner_err_inversion env s output hfreshf hfreshd hfo

/-- C5, counterexample: with the temp-directory removal (the last step of
the protocol) made to fail and every earlier step succeeding, `build_inner`
returns an error, yet the output path — which held `[0]` before the call —
now holds the complete new archive `[1, 2]`: "if any step fails, the output
path is left completely unchanged" is false for the close step. The empty
temp directory also remains. -/
theorem build_close_failure_changes_output :
    (build_inner env5 (initS linuxTarget [(pathOut, [0])]) pathOut).isIoError = true ∧
    fsRead (build_inner env5 (initS linuxTarget [(pathOut, [0])]) pathOut).state pathOut =
      some [1, 2] ∧
    fsRead (initS linuxTarget [(pathOut, [0])]) pathOut = some [0] ∧
    (build_inner env5 (initS linuxTarget [(pathOut, [0])]) pathOut).state.dirs =
      [tempDirPath 0 "/w"] := by
  refine ⟨by decide, by decide, by decide, by decide⟩

theorem build_atomic_protocol_witness :
    (∃ s', build_inner envA sW5 pathOut = .ok s' true ∧
       fsRead s' pathOut = some [5] ∧
       fsRead s' (buildTmpFile sW5 pathOut) = none ∧
       buildTmpDir sW5 pathOut ∉ s'.dirs ∧
       (buildTmpDir sW5 pathOut).parentRepr = pathOut.parentRepr ∧
       s'.src_archives = [] ∧
       s'.events = [.openedFile pathA] ++
         [.createdTempDir (buildTmpDir sW5 pathOut),
          .createdTempFile (buildTmpFile sW5 pathOut),
          .wroteStream (buildTmpFile sW5 pathOut), .droppedMaps,
          .renamed (buildTmpFile sW5 pathOut) pathOut,
          .removedTempDir (buildTmpDir sW5 pathOut)]) ∧
    ((((build_inner env5 (initS linuxTarget [(pathOut, [0])]) pathOut).state).fs =
        (initS linuxTarget [(pathOut, [0])]).fs ∧
      ((build_inner env5 (initS linuxTarget [(pathOut, [0])]) pathOut).state).dirs =
        (initS linuxTarget [(pathOut, [0])]).dirs) ∨
     (env5.closeOk = false ∧ ∃ bytes,
       fsRead (build_inner env5 (initS linuxTarget [(pathOut, [0])]) pathOut).state
         pathOut = some bytes ∧
       fsRead (build_inner env5 (initS linuxTarget [(pathOut, [0])]) pathOut).state
         (buildTmpFile (initS linuxTarget [(pathOut, [0])]) pathOut) = none ∧
       buildTmpDir (initS linuxTarget [(pathOut, [0])]) pathOut ∈
         (build_inner env5 (initS linuxTarget [(pathOut, [0])]) pathOut).state.dirs)) := by
  constructor
  · obtain ⟨s', h1, h2, h3, h4, h5, h6, h7⟩ :=
      (build_atomic_protocol envA sW5 pathOut (by decide) (by decide) (by decide)).1
      .Gnu [{ member_name := "a.o", buf := [3], mtime := 0, uid := 0, gid := 0,
              perms := 0o644 }] [5] [.openedFile pathA]
      (by decide) (by decide) (by decide) (by decide) (by decide) (by decide)
    exact ⟨s', h1, h2, h3, h4, h5, h6, by simpa using h7⟩
  · exact (build_atomic_protocol env5 (initS linuxTarget [(pathOut, [0])]) pathOut
      (by decide) (by decide) (by decide)).2
      (build_inner env5 (initS linuxTarget [(pathOut, [0])]) pathOut).state
      (.otherErr "failed to remove temporary directory") (by decide)

/-! ### C10: build on an empty session, and the returned flag -/

/-- C10: `build_inner` returns `true` exactly when the session holds at
least one entry at build time; a session with zero entries still runs the
full write protocol, producing an (empty) archive file at the output path,
and `build` returns `false` in that case. -/
theorem build_empty_and_return_value (env : Env) (s : S) (output : RPath) :
    (∀ (s' : S) (b : Bool), build env s output = .returned s' b →
       b = !s.entries.isEmpty) ∧
    (s.entries = [] →
     ∀ (k : ArchiveKind) (bytes : List Byte),
       archiveKindOf? s.target.archive_format = some k →
       env.tmpdirOk = true → env.renameOk = true → env.closeOk = true →
       env.encode [] k false (decide (s.target.arch = "arm64ec")) = some bytes →
       fsRead s (buildTmpFile s output) = none →
       ∃ s', build env s output = .returned s' false ∧ fsRead s' output = some bytes) := by
  constructor
  · intro s' b h
    unfold build at h
    split at h
    case h_1 =>
      rename_i s1 b1 heq
      cases h
      obtain ⟨k, s2, ents, hk, hres, hb⟩ := build_inner_ok_inversion env s output _ _ heq
      have hlen := resolveEntries_ok_length s.entries s s2 ents hres
      have hemp : ents.isEmpty = s.entries.isEmpty := by
        cases ents <;> cases hse : s.entries <;> simp_all
      rw [hb, hemp]
    all_goals simp at h
  · intro hempty k bytes hk ht hrn hcl he hfresh
    have hres : resolveEntries s s.entries =
        .ok { s with events := s.events ++ [] } [] := by
      conv_lhs => rw [hempty]
      simp [resolveEntries]
    have hcomp := build_inner_all_ok env s output k [] bytes [] hk hres ht hrn hcl he hfresh
    refine ⟨buildFinalState s output bytes [], ?_, ?_⟩
    · unfold build
      rw [hcomp]
      rfl
    · simp [fsRead, fsLookup, buildFinalState]

theorem build_empty_and_return_value_witness :
    (false = !(initS linuxTarget []).entries.isEmpty) ∧
    (∃ s', build env10 (initS linuxTarget []) pathOut = .returned s' false ∧
      fsRead s' pathOut = some [1]) := by
  constructor
  · exact (build_empty_and_return_value env10 (initS linuxTarget []) pathOut).1
      (build_inner env10 (initS linuxTarget []) pathOut).state false (by decide)
  · exact (build_empty_and_return_value env10 (initS linuxTarget []) pathOut).2
      rfl .Gnu [1] (by decide) rfl rfl rfl (by decide) (by decide)

end ArchiveRs
